import Mathlib

/-!
Verification development for the versostat-pyscraper repository.

The definitions below are a shallow embedding of the two core subsystems:

* `SportsRefScraper` (src/src/classes/SportsRefScraper.py): HTML table
  normalization — header flattening, snake_case renaming, hyperlink
  extraction, non-data row filtering, URL-column insertion and dtype
  inference.
* `crosswalk_player_id` (src/src/scripts/tables/crosswalk_player_id.py):
  team-name matching and fuzzy player matching.

Python strings are modelled as Lean `String`; cell values read by
`pandas.read_html` are modelled as the cell text, with a missing cell
modelled as `""` (an empty HTML cell becomes NaN in pandas, and
`pd.to_numeric` fails on it exactly as parsing fails on `""` here).
Fuzzy scores (rapidfuzz floats on the 0–100 scale) are modelled as `ℚ`,
and the scorer itself (`fuzz.WRatio`, an external library) is a parameter.
-/

namespace VersoStat

/-! ## Python string primitives -/

/-- Python `str.strip()` on the leading side: drop leading whitespace. -/
def dropLeadingWs (l : List Char) : List Char := l.dropWhile Char.isWhitespace

/-- Python `str.strip()`: drop leading and trailing whitespace characters. -/
def trimChars (l : List Char) : List Char :=
  ((l.dropWhile Char.isWhitespace).reverse.dropWhile Char.isWhitespace).reverse

/-- Python `s.strip()` as a `String → String` function. -/
def strStrip (s : String) : String := String.mk (trimChars s.data)

/-- Python `s.lower()` (ASCII case folding, which covers the scraped data). -/
def strLower (s : String) : String := String.mk (s.data.map Char.toLower)

/-- Substring test on character lists: does `needle` occur inside `hay`?
Models Python `needle in hay`. -/
def containsSub (needle : List Char) : List Char → Bool
  | [] => needle.isEmpty
  | c :: rest => needle.isPrefixOf (c :: rest) || containsSub needle rest

/-- Python `"total" in s.lower()` from `_filter_non_data_rows`. -/
def containsTotalCI (s : String) : Bool :=
  containsSub "total".data (s.data.map Char.toLower)

/-! ## `_to_snake_case` (SportsRefScraper.py lines 218–219)

`return text.strip().replace(" ", "_").replace("/", "_").lower()` — both
`replace` calls have single-character patterns, so they are per-character
maps. -/

def to_snake_case (text : String) : String :=
  String.mk
    ((((trimChars text.data).map fun c => if c = ' ' then '_' else c).map
        fun c => if c = '/' then '_' else c).map Char.toLower)

/-- The character-wise part of `_to_snake_case` (space and slash to
underscore, then lowercase), without the leading strip. -/
def snakeMaps (l : List Char) : List Char :=
  ((l.map fun c => if c = ' ' then '_' else c).map
      fun c => if c = '/' then '_' else c).map Char.toLower

/-! ## Header flattening (SportsRefScraper.py lines 82–90)

For a `MultiIndex` column (a list of level labels, top to bottom) the code
joins with `"_"` the levels whose text is non-blank after strip and does
not start with `"Unnamed"`. -/

/-- The filter applied to one level label in `_parse_table`'s flattening:
`str(level).strip() and not str(level).startswith("Unnamed")`. -/
def keepLevel (s : String) : Bool :=
  !(trimChars s.data).isEmpty && !("Unnamed".data.isPrefixOf s.data)

/-- Python `"_".join l`. -/
def joinUnderscore : List String → String
  | [] => ""
  | [s] => s
  | s :: rest => s ++ "_" ++ joinUnderscore rest

/-- Flattening of one multi-level column header, from `_parse_table`. -/
def flatten_column (levels : List String) : String :=
  joinUnderscore (levels.filter keepLevel)

/-- A flattened multi-level header as it ends up in `df.columns` after
`df.columns = [self._to_snake_case(col) for col in df.columns]`. -/
def flatten_snake_column (levels : List String) : String :=
  to_snake_case (flatten_column levels)

/-- Collapse runs of `'_'` to a single `'_'` (auxiliary carrying the
previously emitted character). -/
def collapseAux : Option Char → List Char → List Char
  | _, [] => []
  | prev, c :: rest =>
    if c = '_' ∧ prev = some '_' then collapseAux prev rest
    else c :: collapseAux (some c) rest

/-- Collapse runs of `'_'` to a single `'_'`, as claim C5's snake_case
conversion demands (the code has no such step). -/
def collapseUnderscores (l : List Char) : List Char := collapseAux none l

/-- Claim C5's snake_case conversion, written from the spec's words:
like `to_snake_case` but with repeated underscores collapsed. -/
def spec_to_snake_case (text : String) : String :=
  String.mk (collapseUnderscores (to_snake_case text).data)

/-- Skip labels duplicating the level above (auxiliary carrying the
previous label). -/
def dedupAux : Option String → List String → List String
  | _, [] => []
  | prev, a :: rest =>
    if some a = prev then dedupAux prev rest else a :: dedupAux (some a) rest

/-- Skip adjacent duplicate labels, as claim C5's flattening demands
(the code has no such step). -/
def dedupAdjacent (l : List String) : List String := dedupAux none l

/-- Claim C5's reading of header flattening, written from the spec's
words: skip placeholder labels and labels duplicating the level above,
join with `"_"`, then snake_case with underscore collapsing. -/
def spec_flatten_snake_column (levels : List String) : String :=
  spec_to_snake_case (joinUnderscore (dedupAdjacent (levels.filter keepLevel)))

/-! ## Numeric inference (`_set_df_dtypes`, SportsRefScraper.py lines 196–208)

`pd.to_numeric(df[col], errors="coerce")` parses each cell text as a
number (NaN on failure); the parsed column replaces the original when
`numeric_col.notna().sum() >= len(df) * 0.5`; finally `df.convert_dtypes()`
gives the column `Int64` when every parsed value is integral, else
`Float64`; unconverted columns stay textual.

The parser below models `pd.to_numeric` on the scraped cell domain:
an optional sign and decimal digits with at most one decimal point
(scientific notation and the special spellings `inf`/`nan` do not occur
in the scraped tables). -/

/-- Value of a digit character array, `none` when some character is not a
decimal digit or the list is empty. -/
def digitsVal : List Char → Option Nat
  | [] => none
  | l => l.foldl (fun acc c =>
      match acc with
      | none => none
      | some n => if c.isDigit then some (n * 10 + (c.toNat - '0'.toNat)) else none)
      (some 0)

/-- Split a character list at the first `'.'`; `none` when there is no dot. -/
def splitAtDot (l : List Char) : Option (List Char × List Char) :=
  match l.findIdx? (· = '.') with
  | none => none
  | some i => some (l.take i, l.drop (i + 1))

/-- Parse a cell text as a number, modelling `pd.to_numeric(·, errors="coerce")`
on decimal literals: optional surrounding whitespace, optional sign, digits
with at most one decimal point, at least one digit overall. -/
def parseNumber (s : String) : Option ℚ :=
  let l := trimChars s.data
  let (sign, body) :=
    match l with
    | '-' :: rest => ((-1 : Int), rest)
    | '+' :: rest => ((1 : Int), rest)
    | _ => ((1 : Int), l)
  if body.isEmpty then none
  else
    match splitAtDot body with
    | none => (digitsVal body).map fun n => mkRat (sign * n) 1
    | some (intPart, fracPart) =>
      if (fracPart.findIdx? (· = '.')).isSome then none
      else
        let ip := if intPart.isEmpty then some 0 else digitsVal intPart
        let fp := if fracPart.isEmpty then some 0 else digitsVal fracPart
        if intPart.isEmpty && fracPart.isEmpty then none
        else
          match ip, fp with
          | some i, some f =>
            some (mkRat (sign * (i * 10 ^ fracPart.length + f)) (10 ^ fracPart.length))
          | _, _ => none

/-- The inferred storage type of one normalized column. -/
inductive Dtype
  | integer
  | float
  | text
deriving DecidableEq

/-- The cells of a column that `pd.to_numeric` successfully parses. -/
def parsedValues (cells : List String) : List ℚ := cells.filterMap parseNumber

/-- Dtype decision of `_set_df_dtypes` for one column of cell texts:
the column becomes numeric exactly when
`numeric_col.notna().sum() >= len(df) * 0.5`, and `df.convert_dtypes()`
then yields `Int64` exactly when every parsed value is integral. -/
def set_column_dtype (cells : List String) : Dtype :=
  if 2 * (parsedValues cells).length ≥ cells.length then
    if (parsedValues cells).all fun q => q.den = 1 then .integer else .float
  else .text

/-- Claim C1's reading of the dtype rule, written from the spec's words:
the fraction is taken over non-empty cells only, an entirely empty column
is forced to text, and integer additionally requires that no cell text
contains a decimal point. -/
def spec_column_dtype (cells : List String) : Dtype :=
  let nonEmpty := cells.filter fun c => c ≠ ""
  if nonEmpty.isEmpty then .text
  else if 2 * (parsedValues nonEmpty).length ≥ nonEmpty.length then
    if ((parsedValues nonEmpty).all fun q => q.den = 1)
        && (nonEmpty.all fun c => !(containsSub ['.'] c.data)) then .integer
    else .float
  else .text

/-! ## Row filtering (`_filter_non_data_rows`, SportsRefScraper.py lines 178–194)

A row is modelled as its list of cell texts (the temporary
`_original_row_idx` column of `_parse_table` is modelled as an explicit
index paired with the row, see `parse_table_body` below). -/

/-- `is_data_row` from `_filter_non_data_rows`: keep a row unless its first
column value contains `"total"` case-insensitively or equals one of the
original (pre-snake_case) column labels. -/
def is_data_row (original_columns : List String) (row : List String) : Bool :=
  let first_val := row.headD ""
  !(containsTotalCI first_val) && !(original_columns.contains first_val)

/-- `_filter_non_data_rows` on index-tagged rows:
`df[df.apply(is_data_row, axis=1)]`. -/
def filter_non_data_rows (original_columns : List String)
    (rows : List (Nat × List String)) : List (Nat × List String) :=
  rows.filter fun p => is_data_row original_columns p.2

/-- Claim C2's reading of `is_data_row`, written from the spec's words:
a row is dropped when ANY of its (non-link) cells contains `"total"`
case-insensitively, or when its first value matches an original header
label. At this stage of the pipeline no link columns exist yet, so every
cell of the row is a non-link cell. -/
def spec_is_data_row (original_columns : List String) (row : List String) : Bool :=
  !(row.any containsTotalCI) && !(original_columns.contains (row.headD ""))

/-! ## Hyperlink extraction (`_extract_table_urls`, SportsRefScraper.py lines 114–135) -/

/-- One physical `<td>`/`<th>` cell of the HTML body: its text, its
`colspan` count, and the `href` of the first `<a href=...>` inside it
(`none` when the cell holds no link). -/
structure HCell where
  text : String
  colspan : Nat
  href : Option String
deriving DecidableEq

instance : Inhabited HCell := ⟨⟨"", 1, none⟩⟩

/-- The `(col_idx, href)` pairs of one body row: the code enumerates the
physical cells (`for col_idx, cell in enumerate(cells)`) and records the
first link of each cell that has one. The `colspan` attribute is not
consulted. -/
def rowUrls (cells : List HCell) : List (Nat × String) :=
  cells.enum.filterMap fun p => p.2.href.map fun u => (p.1, u)

/-- `_extract_table_urls`: the dict `urls_data`, modelled as an association
list from row index to the row's `(col_idx, href)` pairs; a row appears
only when at least one of its cells holds a link. -/
def extract_table_urls (body : List (List HCell)) : List (Nat × List (Nat × String)) :=
  body.enum.filterMap fun p =>
    let us := rowUrls p.2
    if us.isEmpty then none else some (p.1, us)

/-- `urls_data[original_row_idx].get(col_idx, "")` guarded by
`if original_row_idx in urls_data`, from `_add_url_columns`. -/
def lookupUrl (urls : List (Nat × List (Nat × String))) (ri ci : Nat) : String :=
  match urls.lookup ri with
  | none => ""
  | some row => (row.lookup ci).getD ""

/-- Claim C3's reading of the extraction, written from the spec's words:
the first link of each physical cell (or nothing) is replicated across
every LOGICAL column the cell's span count covers. -/
def spec_rowUrls (cells : List HCell) : List (Nat × String) :=
  (cells.foldl
    (fun st c =>
      match c.href with
      | some u => (st.1 + c.colspan, st.2 ++ ((List.range c.colspan).map fun k => (st.1 + k, u)))
      | none => (st.1 + c.colspan, st.2))
    ((0 : Nat), ([] : List (Nat × String)))).2

/-- Span-aware `_extract_table_urls` as claim C3 describes it. -/
def spec_extract_table_urls (body : List (List HCell)) : List (Nat × List (Nat × String)) :=
  body.enum.filterMap fun p =>
    let us := spec_rowUrls p.2
    if us.isEmpty then none else some (p.1, us)

/-! ## URL column insertion (`_add_url_columns`, SportsRefScraper.py lines 137–176)

The dataframe is modelled as a list of column names `cols` plus rows
tagged with their `_original_row_idx`; the temporary tracking column
itself is the tag, so `len(df.columns) - 1` is `cols.length`. Columns are
addressed positionally (the scraped tables have pairwise distinct labels,
and `get_loc` on a duplicated label would not return an integer, which
the code maps to position `0`). -/

/-- `sorted(columns_with_urls)` after the bound filter
`idx < len(df.columns) - 1`: the column indices below `bound` that occur
in `urls_data`, in increasing order. -/
def columns_with_urls (urls : List (Nat × List (Nat × String))) (bound : Nat) : List Nat :=
  (List.range bound).filter fun c => urls.any fun p => p.2.any fun q => q.1 = c

/-- One iteration of the insertion loop of `_add_url_columns`:
`col_name = df.columns[col_idx]`, the URL values are gathered per row from
`urls_data` via the row's `_original_row_idx`, and the new column
`col_name + "_url"` is inserted at `get_loc(col_name) + 1` (position `0`
when `get_loc` does not yield an integer, i.e. on a duplicated label). -/
def insert_url_column (urls : List (Nat × List (Nat × String)))
    (st : List String × List (Nat × List String)) (ci : Nat) :
    List String × List (Nat × List String) :=
  let cols := st.1
  let col_name := cols.getD ci ""
  let url_col_name := col_name ++ "_url"
  let pos := if cols.count col_name = 1 then cols.indexOf col_name + 1 else 0
  (cols.insertIdx pos url_col_name,
   st.2.map fun p => (p.1, p.2.insertIdx pos (lookupUrl urls p.1 ci)))

/-- `_add_url_columns`: early return on an empty `urls_data`, then the
insertion loop over the sorted, bound-filtered column indices. -/
def add_url_columns (cols : List String) (urls : List (Nat × List (Nat × String)))
    (rows : List (Nat × List String)) : List String × List (Nat × List String) :=
  if urls.isEmpty then (cols, rows)
  else (columns_with_urls urls cols.length).foldl (insert_url_column urls) (cols, rows)

/-! ## The `_parse_table` pipeline (SportsRefScraper.py lines 66–112) -/

/-- `pandas.read_html` expansion of one body row: each physical cell
contributes its text once per spanned column. -/
def expandRow (cells : List HCell) : List String :=
  (cells.map fun c => List.replicate c.colspan c.text).flatten

/-- The result of `_parse_table` after dtype inference: column names, the
surviving rows (cell texts, original order) and the per-column dtypes. -/
structure ParsedTable where
  cols : List String
  rows : List (List String)
  dtypes : List Dtype
deriving DecidableEq

/-- The cell texts of column `j` across all rows (`df[col]` positionally). -/
def column_values (rows : List (List String)) (j : Nat) : List String :=
  rows.map fun r => r.getD j ""

/-- The body of `_parse_table` on an already-selected table, given the
flattened pre-snake_case header labels `origCols` and the physical body
rows: extract `urls_data` on the original geometry, expand the grid as
`read_html` does, snake_case the columns, tag rows with their original
index, filter non-data rows, insert URL columns, drop the tag and infer
dtypes. -/
def parse_table_body (origCols : List String) (body : List (List HCell)) : ParsedTable :=
  let urls := extract_table_urls body
  let grid := (body.map expandRow).enum
  let snakeCols := origCols.map to_snake_case
  let filtered := filter_non_data_rows origCols grid
  let st := add_url_columns snakeCols urls filtered
  let rows := st.2.map Prod.snd
  { cols := st.1
    rows := rows
    dtypes := (List.range st.1.length).map fun j => set_column_dtype (column_values rows j) }

/-! ## Table selection (`_parse_table`, SportsRefScraper.py lines 66–75) -/

/-- The two structural failures of `_parse_table`: the `ValueError`
`"No stats tables found on page"` (spec name `NoTableFoundError`) and the
`IndexError` for a too-large index (spec name `TableIndexOutOfRangeError`). -/
inductive TableError
  | noTableFound
  | tableIndexOutOfRange
deriving DecidableEq

/-- A candidate table: its flattened pre-snake_case header labels and its
physical body rows. -/
abbrev HtmlTable := List String × List (List HCell)

/-- Candidate selection at the top of `_parse_table`:
`if not tables: raise ValueError(...)`,
`if table_index >= len(tables): raise IndexError(...)`,
else `tables[table_index]`. -/
def select_stats_table (tables : List HtmlTable) (table_index : Nat) :
    Except TableError HtmlTable :=
  if tables.isEmpty then .error .noTableFound
  else if tables.length ≤ table_index then .error .tableIndexOutOfRange
  else .ok (tables.getD table_index ([], []))

/-- `_parse_table` end to end: select the candidate at `table_index`, then
normalize it. -/
def parse_table (tables : List HtmlTable) (table_index : Nat) :
    Except TableError ParsedTable :=
  (select_stats_table tables table_index).map fun t => parse_table_body t.1 t.2

/-! ### Characterizations of the URL machinery used by the claims -/

/-- The link value of the physical cell at body row `ri`, physical cell
position `ci`: its first `href`, or `""` when the cell is absent or holds
no link. -/
def hrefAt (body : List (List HCell)) (ri ci : Nat) : String :=
  match body.get? ri with
  | none => ""
  | some row =>
    match row.get? ci with
    | none => ""
    | some cell => cell.href.getD ""

/-- The entry `_extract_table_urls` stores for one row: present exactly
when the row holds at least one link. -/
def row_urls_entry (row : List HCell) : Option (List (Nat × String)) :=
  if (rowUrls row).isEmpty then none else some (rowUrls row)

/-- The per-row effect of the insertion loop of `_add_url_columns` on a row
tagged with original index `oi`: the positions are driven by the evolving
column list alone, and every inserted value is looked up at `oi`. -/
def url_inserts_for (urls : List (Nat × List (Nat × String))) :
    List Nat → List String → Nat → List String → List String
  | [], _, _, r => r
  | ci :: rest, cols, oi, r =>
    let col_name := cols.getD ci ""
    let pos := if cols.count col_name = 1 then cols.indexOf col_name + 1 else 0
    url_inserts_for urls rest (cols.insertIdx pos (col_name ++ "_url")) oi
      (r.insertIdx pos (lookupUrl urls oi ci))

/-! ## crosswalk_player_id.py: fuzzy matching

Fuzzy scores are `ℚ` on the 0–100 scale and the scorer (`fuzz.WRatio`) is
an explicit parameter `score`. -/

/-- Models `rapidfuzz.process.extractOne(query, choices, scorer=...)`:
the choice with the highest score together with its score and index, the
earliest choice on ties, `None` on an empty choice list. -/
def fuzzy_extract_one (score : String → String → ℚ) (query : String)
    (choices : List String) : Option (String × ℚ × Nat) :=
  choices.enum.foldl
    (fun best p =>
      let s := score query p.2
      match best with
      | none => some (p.2, s, p.1)
      | some (c, bs, bi) => if s > bs then some (p.2, s, p.1) else some (c, bs, bi))
    none

/-- One FPL player row as used by the crosswalk script. -/
structure FPLPlayer where
  id : Nat
  first_name : String
  second_name : String
  web_name : String
  team_name : String
deriving DecidableEq

/-- One Sportmonks player row as used by the crosswalk script. -/
structure SMPlayer where
  player_id : Nat
  player_name : String
  first_name : String
  last_name : String
  common_name : String
  team_name : String
deriving DecidableEq

/-- `get_fpl_name_variants` (crosswalk_player_id.py lines 52–66). -/
def get_fpl_name_variants (row : FPLPlayer) : List String :=
  let first_name := strStrip row.first_name
  let second_name := strStrip row.second_name
  let full_name := strStrip (first_name ++ " " ++ second_name)
  let v1 := if full_name ≠ "" then [full_name] else []
  let web_name := strStrip row.web_name
  if web_name ≠ "" ∧ web_name ≠ full_name then v1 ++ [web_name] else v1

/-- `get_sm_name_variants` (crosswalk_player_id.py lines 69–87). -/
def get_sm_name_variants (row : SMPlayer) : List String :=
  let player_name := strStrip row.player_name
  let v1 := if player_name ≠ "" then [player_name] else []
  let first_name := strStrip row.first_name
  let last_name := strStrip row.last_name
  let full_name := strStrip (first_name ++ " " ++ last_name)
  let v2 := if full_name ≠ "" ∧ full_name ≠ player_name then v1 ++ [full_name] else v1
  let common_name := strStrip row.common_name
  if common_name ≠ "" ∧ common_name ≠ player_name then v2 ++ [common_name] else v2

/-! ### `match_team_names` (crosswalk_player_id.py lines 90–121) -/

/-- First manual-mapping lookup, modelling the Python dict
`MANUAL_TEAM_MAPPINGS` (an association list here, first hit wins). -/
def manualLookup (manual : List (String × String)) (k : String) : Option String :=
  manual.lookup k

/-- The loop of `match_team_names`, carrying the mapping and unmatched
accumulators in order; `ValueError` (spec name `UnmatchedTeamsError`) with
the full unmatched list when any team failed. -/
def match_team_names_loop (score : String → String → ℚ)
    (manual : List (String × String)) (threshold : ℚ) (sm_teams : List String) :
    List String → List (String × String) → List String →
    Except (List String) (List (String × String))
  | [], mapping, unmatched =>
    if unmatched.isEmpty then .ok mapping else .error unmatched
  | fpl_team :: rest, mapping, unmatched =>
    match manualLookup manual fpl_team with
    | some mapped_team =>
      if sm_teams.contains mapped_team then
        match_team_names_loop score manual threshold sm_teams rest
          (mapping ++ [(fpl_team, mapped_team)]) unmatched
      else
        match fuzzy_extract_one score fpl_team sm_teams with
        | some (matched_team, s, _) =>
          if s ≥ threshold then
            match_team_names_loop score manual threshold sm_teams rest
              (mapping ++ [(fpl_team, matched_team)]) unmatched
          else
            match_team_names_loop score manual threshold sm_teams rest
              mapping (unmatched ++ [fpl_team])
        | none =>
          match_team_names_loop score manual threshold sm_teams rest
            mapping (unmatched ++ [fpl_team])
    | none =>
      match fuzzy_extract_one score fpl_team sm_teams with
      | some (matched_team, s, _) =>
        if s ≥ threshold then
          match_team_names_loop score manual threshold sm_teams rest
            (mapping ++ [(fpl_team, matched_team)]) unmatched
        else
          match_team_names_loop score manual threshold sm_teams rest
            mapping (unmatched ++ [fpl_team])
      | none =>
        match_team_names_loop score manual threshold sm_teams rest
          mapping (unmatched ++ [fpl_team])

/-- `match_team_names`. -/
def match_team_names (score : String → String → ℚ) (manual : List (String × String))
    (threshold : ℚ) (fpl_teams sm_teams : List String) :
    Except (List String) (List (String × String)) :=
  match_team_names_loop score manual threshold sm_teams fpl_teams [] []

/-- The per-team decision implemented by the loop body of
`match_team_names`: the manual alias when it is present and its target is
an SM team, else the best fuzzy candidate when its score reaches the
threshold, else no match. -/
def team_match_decision (score : String → String → ℚ)
    (manual : List (String × String)) (threshold : ℚ) (sm_teams : List String)
    (fpl_team : String) : Option String :=
  let fuzzy :=
    match fuzzy_extract_one score fpl_team sm_teams with
    | some (matched_team, s, _) => if s ≥ threshold then some matched_team else none
    | none => none
  match manualLookup manual fpl_team with
  | some mapped_team => if sm_teams.contains mapped_team then some mapped_team else fuzzy
  | none => fuzzy

/-! ### `find_best_match` (crosswalk_player_id.py lines 139–167) -/

/-- The inner update of `find_best_match` for one scored result:
`if result and result[1] >= threshold: if best is None or score > best[1]`. -/
def fbm_update (threshold : ℚ) (sm : SMPlayer) (best : Option (SMPlayer × ℚ))
    (result : Option (String × ℚ × Nat)) : Option (SMPlayer × ℚ) :=
  match result with
  | none => best
  | some (_, s, _) =>
    if s ≥ threshold then
      match best with
      | none => some (sm, s)
      | some (bp, bs) => if s > bs then some (sm, s) else some (bp, bs)
    else best

/-- `find_best_match`: no FPL name variants means no match; candidates
without SM name variants are skipped; otherwise each FPL variant is scored
with `extractOne` against the candidate's variants and the best
above-threshold score wins, the first candidate on ties. -/
def find_best_match (score : String → String → ℚ) (fpl_player : FPLPlayer)
    (sm_candidates : List SMPlayer) (threshold : ℚ) : Option (SMPlayer × ℚ) :=
  let fpl_variants := get_fpl_name_variants fpl_player
  if fpl_variants.isEmpty then none
  else
    sm_candidates.foldl
      (fun best sm =>
        let sm_variants := get_sm_name_variants sm
        if sm_variants.isEmpty then best
        else
          fpl_variants.foldl
            (fun best fpl_name => fbm_update threshold sm best
              (fuzzy_extract_one score fpl_name sm_variants))
            best)
      none

/-- The best above-threshold score one SM candidate can achieve against the
FPL variant list `fv`, through `extractOne` per FPL variant; `none` when the
candidate has no variants or never reaches the threshold. -/
def cand_best_score (score : String → String → ℚ) (threshold : ℚ)
    (fv : List String) (sm : SMPlayer) : Option ℚ :=
  let sv := get_sm_name_variants sm
  if sv.isEmpty then none
  else
    ((fv.filterMap fun fn => (fuzzy_extract_one score fn sv).map fun r => r.2.1).filter
      fun s => s ≥ threshold).maximum

/-- Merging one candidate's best achievable score (if any) into the
running best of `find_best_match`: no score leaves the best unchanged, a
score replaces it only when strictly greater. -/
def fbm_combine (sm : SMPlayer) (b : Option (SMPlayer × ℚ)) : Option ℚ → Option (SMPlayer × ℚ)
  | none => b
  | some m =>
    match b with
    | none => some (sm, m)
    | some (bp, bs) => if m > bs then some (sm, m) else some (bp, bs)

/-- The candidates eligible for an FPL player, in source order, each with
its best achievable above-threshold score. -/
def eligible_candidates (score : String → String → ℚ) (threshold : ℚ)
    (fv : List String) (sm_candidates : List SMPlayer) : List (SMPlayer × ℚ) :=
  sm_candidates.filterMap fun sm => (cand_best_score score threshold fv sm).map fun s => (sm, s)

/-! ### The crosswalk build loop (`main`, crosswalk_player_id.py lines 209–254) -/

/-- One row of the crosswalk table. -/
structure CrosswalkEntry where
  fpl_player_id : Nat
  sm_player_id : Nat
deriving DecidableEq

/-- `build_sm_team_index(sm_players)[team]` with a missing team giving the
empty pool: grouping by `team_name` preserves order within each team, so
the pool for `team` is the subsequence of SM players on that team. -/
def sm_candidates_for (sm_players : List SMPlayer) (team : String) : List SMPlayer :=
  sm_players.filter fun p => p.team_name = team

/-- The per-player step of the matching loop in `main`: skip a player
without a mapped team or without candidates, otherwise record the
`find_best_match` result as a crosswalk row. -/
def crosswalk_row (score : String → String → ℚ) (threshold : ℚ)
    (team_mapping : List (String × String)) (sm_players : List SMPlayer)
    (fpl_player : FPLPlayer) : Option CrosswalkEntry :=
  if fpl_player.team_name = "" then none
  else
    match team_mapping.lookup fpl_player.team_name with
    | none => none
    | some sm_team =>
      let sm_candidates := sm_candidates_for sm_players sm_team
      if sm_candidates.isEmpty then none
      else
        (find_best_match score fpl_player sm_candidates threshold).map fun m =>
          ⟨fpl_player.id, m.1.player_id⟩

/-- `crosswalk_rows` as accumulated by the loop in `main`: one optional
entry per FPL player, appended in order. -/
def build_crosswalk (score : String → String → ℚ) (threshold : ℚ)
    (team_mapping : List (String × String)) (sm_players : List SMPlayer)
    (fpl_players : List FPLPlayer) : List CrosswalkEntry :=
  fpl_players.filterMap (crosswalk_row score threshold team_mapping sm_players)

/-! ## Concrete inputs used by the claims -/

/-- Three body rows `[A, TOTAL, B]`, each carrying a distinct link in its
second cell, for the row-correlation claim. -/
def bodyC4 : List (List HCell) :=
  [[⟨"A", 1, none⟩, ⟨"1", 1, some "u0"⟩],
   [⟨"Total", 1, none⟩, ⟨"9", 1, some "u1"⟩],
   [⟨"B", 1, none⟩, ⟨"2", 1, some "u2"⟩]]

/-- A body row with links in two distinct physical columns, for the
URL-column insertion claim. -/
def bodyC9 : List (List HCell) :=
  [[⟨"A1", 1, some "a1"⟩, ⟨"7", 1, some "b1"⟩]]

/-- A body row whose first cell spans two columns and carries a link, for
the colspan claim. -/
def bodySpan : List (List HCell) :=
  [[⟨"X", 2, some "L"⟩, ⟨"Y", 1, none⟩]]

/-! # Theorems -/

/-- C1 (corrected): in `_set_df_dtypes` a column is typed numeric iff the
count of cells whose text parses as a number is at least 50% of the TOTAL
row count (empty cells included in the denominator), and a numeric column
is typed integer iff every parsed value is integral — a decimal point in
the literal text does not force float; the spec's examples
`["1","2","","4"]` (numeric) and `["1","abc","x","y"]` (text) do hold. -/
theorem C1_numeric_inference :
    (∀ cells : List String,
      (set_column_dtype cells ≠ .text ↔ 2 * (parsedValues cells).length ≥ cells.length) ∧
      (set_column_dtype cells = .integer ↔
        (2 * (parsedValues cells).length ≥ cells.length ∧ ∀ q ∈ parsedValues cells, q.den = 1))) ∧
    set_column_dtype ["1", "2", "", "4"] = .integer ∧
    set_column_dtype ["1", "abc", "x", "y"] = .text := by
  refine ⟨fun cells => ?_, by decide, by decide⟩
  unfold set_column_dtype
  by_cases h : 2 * (parsedValues cells).length ≥ cells.length
  · by_cases ha : ((parsedValues cells).all fun q => q.den = 1) = true
    · have hall : ∀ q ∈ parsedValues cells, q.den = 1 := fun q hq => by
        simpa using List.all_eq_true.mp ha q hq
      rw [if_pos h, if_pos ha]
      exact ⟨iff_of_true (by decide) h, iff_of_true rfl ⟨h, hall⟩⟩
    · have hnall : ¬ ∀ q ∈ parsedValues cells, q.den = 1 := fun hc =>
        ha (List.all_eq_true.mpr fun q hq => by simpa using hc q hq)
      rw [if_pos h, if_neg ha]
      exact ⟨iff_of_true (by decide) h, iff_of_false (by decide) fun hc => hnall hc.2⟩
  · rw [if_neg h]
    exact ⟨iff_of_false (fun hne => hne rfl) h, iff_of_false (by decide) fun hc => h hc.1⟩

/-- C1: the claim as stated fails on the code. A column whose single
non-empty cell parses is still text (the denominator is the full row
count), and `["0.00","1.00"]` is typed integer, not float (the literal
decimal point is never consulted). -/
theorem C1_counterexample :
    set_column_dtype ["1", "", "", ""] = .text ∧
    spec_column_dtype ["1", "", "", ""] = .integer ∧
    set_column_dtype ["0.00", "1.00"] = .integer ∧
    spec_column_dtype ["0.00", "1.00"] = .float := by decide

/-- C2 (corrected): `_filter_non_data_rows` keeps exactly the rows whose
FIRST column value neither contains `"total"` case-insensitively nor
matches an original pre-snake_case header label (cells other than the
first are never examined); and the filter runs before type inference, so
a table without links infers each column's dtype from the filtered rows
alone. -/
theorem C2_row_filter :
    (∀ (ocols : List String) (rows : List (Nat × List String)) (p : Nat × List String),
      p ∈ filter_non_data_rows ocols rows ↔
        p ∈ rows ∧ containsTotalCI (p.2.headD "") = false ∧
          ocols.contains (p.2.headD "") = false) ∧
    (∀ (origCols : List String) (body : List (List HCell)),
      (extract_table_urls body).isEmpty = true →
      (parse_table_body origCols body).dtypes =
        (List.range origCols.length).map fun j =>
          set_column_dtype (column_values
            ((filter_non_data_rows origCols (body.map expandRow).enum).map Prod.snd) j)) := by
  constructor
  · intro ocols rows p
    simp [filter_non_data_rows, List.mem_filter, is_data_row]
  · intro origCols body h
    simp [parse_table_body, add_url_columns, h]

/-- C2: the claim as stated fails on the code: a row whose SECOND cell
contains `"total"` survives the filter, though the claim's predicate
drops it. -/
theorem C2_counterexample :
    filter_non_data_rows [] [(0, ["A", "Total pts"])] = [(0, ["A", "Total pts"])] ∧
    spec_is_data_row [] ["A", "Total pts"] = false := by decide

/-- C3: the claim as stated fails on the code: for a 2-column-spanning
link cell, `_extract_table_urls` records the link only under the cell's
physical index 0; logical column 1 receives nothing, while the claim's
span-aware extraction gives it the same link. -/
theorem C3_counterexample :
    extract_table_urls bodySpan = [(0, [(0, "L")])] ∧
    spec_extract_table_urls bodySpan = [(0, [(0, "L"), (1, "L")])] ∧
    lookupUrl (extract_table_urls bodySpan) 0 1 = "" ∧
    lookupUrl (spec_extract_table_urls bodySpan) 0 1 = "L" := by decide

theorem enumFrom_cons {α : Type _} (n : Nat) (a : α) (l : List α) :
    (a :: l).enumFrom n = (n, a) :: l.enumFrom (n + 1) := rfl

/-- Looking up a key below the enumeration start of a keyed `filterMap`
finds nothing. -/
theorem lookup_keyed_filterMap_lt {α β : Type _} (h : α → Option β) :
    ∀ (l : List α) (n k : Nat), k < n →
      ((l.enumFrom n).filterMap fun p => (h p.2).map fun v => (p.1, v)).lookup k = none := by
  intro l
  induction l with
  | nil => intro n k _; rfl
  | cons a rest ih =>
    intro n k hk
    simp only [enumFrom_cons, List.filterMap_cons]
    cases hh : h a with
    | none =>
      simp only [hh, Option.map_none']
      exact ih (n + 1) k (Nat.lt_succ_of_lt hk)
    | some v =>
      have hb : (k == n) = false := beq_eq_false_iff_ne.mpr (Nat.ne_of_lt hk)
      simp only [hh, Option.map_some', List.lookup_cons, hb]
      exact ih (n + 1) k (Nat.lt_succ_of_lt hk)

/-- Looking up key `n + i` in a keyed `filterMap` over an enumeration
starting at `n` finds the image of element `i`. -/
theorem lookup_keyed_filterMap {α β : Type _} (h : α → Option β) :
    ∀ (l : List α) (n i : Nat),
      ((l.enumFrom n).filterMap fun p => (h p.2).map fun v => (p.1, v)).lookup (n + i) =
        (l.get? i).bind h := by
  intro l
  induction l with
  | nil => intro n i; rfl
  | cons a rest ih =>
    intro n i
    simp only [enumFrom_cons, List.filterMap_cons]
    cases i with
    | zero =>
      cases hh : h a with
      | none =>
        simpa [hh] using lookup_keyed_filterMap_lt h rest (n + 1) (n + 0) (by omega)
      | some v =>
        have hb : (n + 0 == n) = true := beq_iff_eq.mpr (by omega)
        simp [hh, List.lookup_cons, hb]
    | succ i' =>
      have hkey : n + (i' + 1) = (n + 1) + i' := by omega
      cases hh : h a with
      | none =>
        simp only [hh, Option.map_none', List.get?_cons_succ]
        rw [hkey]
        exact ih (n + 1) i'
      | some v =>
        have hb : (n + (i' + 1) == n) = false := beq_eq_false_iff_ne.mpr (by omega)
        simp only [hh, Option.map_some', List.lookup_cons, hb, List.get?_cons_succ]
        rw [hkey]
        exact ih (n + 1) i'

/-- The link pairs `_extract_table_urls` records for one row, addressed by
physical cell index. -/
theorem rowUrls_lookup (cells : List HCell) (ci : Nat) :
    (rowUrls cells).lookup ci = (cells.get? ci).bind HCell.href := by
  simpa [rowUrls, List.enum] using lookup_keyed_filterMap HCell.href cells 0 ci

/-- `_extract_table_urls` in keyed-`filterMap` form. -/
theorem extract_table_urls_eq (body : List (List HCell)) :
    extract_table_urls body =
      body.enum.filterMap fun p => (row_urls_entry p.2).map fun v => (p.1, v) := by
  unfold extract_table_urls
  have hf : (fun p : Nat × List HCell =>
        let us := rowUrls p.2
        if us.isEmpty = true then none else some (p.1, us)) =
      fun p : Nat × List HCell => (row_urls_entry p.2).map fun v => (p.1, v) := by
    funext p
    unfold row_urls_entry
    by_cases he : (rowUrls p.2).isEmpty = true <;> simp [he]
  rw [hf]

/-- The per-row entry of the extraction dict. -/
theorem extract_lookup (body : List (List HCell)) (ri : Nat) :
    (extract_table_urls body).lookup ri = (body.get? ri).bind row_urls_entry := by
  rw [extract_table_urls_eq]
  simpa [List.enum] using lookup_keyed_filterMap row_urls_entry body 0 ri

/-- C3 (corrected): `_extract_table_urls` records, for every physical body
cell, the cell's first hyperlink under the cell's PHYSICAL index only —
the column-span count is never consulted, so a spanning link cell yields
its link for just one logical column. The grid lookup of row `ri`,
physical position `ci` is exactly that cell's first `href` (or `""`). -/
theorem C3_link_extraction (body : List (List HCell)) (ri ci : Nat) :
    lookupUrl (extract_table_urls body) ri ci = hrefAt body ri ci := by
  unfold lookupUrl hrefAt
  rw [extract_lookup]
  cases hrow : body.get? ri with
  | none => rfl
  | some row =>
    simp only [Option.some_bind]
    unfold row_urls_entry
    by_cases he : (rowUrls row).isEmpty = true
    · have hre : rowUrls row = [] := List.isEmpty_iff.mp he
      have h2 := rowUrls_lookup row ci
      rw [hre] at h2
      rw [if_pos he]
      cases hc : row.get? ci with
      | none => rfl
      | some cell =>
        rw [hc] at h2
        simp only [Option.some_bind] at h2
        simp [← h2]
    · rw [if_neg he]
      have h2 := rowUrls_lookup row ci
      cases hc : row.get? ci with
      | none =>
        rw [hc] at h2
        simp only [Option.none_bind] at h2
        simp [h2]
      | some cell =>
        rw [hc] at h2
        simp only [Option.some_bind] at h2
        simp [h2]

/-- C5: the claim as stated fails on the code: a level label duplicating
the level above is kept, not skipped; repeated underscores are not
collapsed; and two distinct well-formed two-level headers can flatten to
the same column name. -/
theorem C5_counterexample :
    flatten_snake_column ["Passing", "Passing"] = "passing_passing" ∧
    spec_flatten_snake_column ["Passing", "Passing"] = "passing" ∧
    to_snake_case "a  b" = "a__b" ∧
    spec_to_snake_case "a  b" = "a_b" ∧
    flatten_snake_column ["A B", "C"] = "a_b_c" ∧
    flatten_snake_column ["A", "B C"] = "a_b_c" := by decide

/-- C2 witness: the filter characterization and the filter-before-typing
conjunct at a concrete one-column table. -/
theorem C2_witness :
    ((0, ["A"]) ∈ filter_non_data_rows [] [(0, ["A"])]) ∧
    (parse_table_body ["H"] [[⟨"5", 1, none⟩]]).dtypes =
      (List.range 1).map (fun j => set_column_dtype (column_values
        ((filter_non_data_rows ["H"] [(0, ["5"])]).map Prod.snd) j)) := by
  constructor
  · exact (C2_row_filter.1 [] [(0, ["A"])] (0, ["A"])).mpr ⟨by decide, by decide, by decide⟩
  · simpa using C2_row_filter.2 ["H"] [[⟨"5", 1, none⟩]] (by decide)

/-- The rows component of the `_add_url_columns` insertion loop: every
row is transformed independently, with all inserted values looked up at
the row's own original index. -/
theorem add_fold_rows (urls : List (Nat × List (Nat × String))) :
    ∀ (cis : List Nat) (cols : List String) (rows : List (Nat × List String)),
      (cis.foldl (insert_url_column urls) (cols, rows)).2 =
        rows.map fun p => (p.1, url_inserts_for urls cis cols p.1 p.2) := by
  intro cis
  induction cis with
  | nil => intro cols rows; simp [url_inserts_for]
  | cons ci rest ih =>
    intro cols rows
    rw [List.foldl_cons]
    simp only [insert_url_column]
    rw [ih]
    simp only [List.map_map]
    rfl

/-- C4 (confirmed): hyperlink extraction happens on the original body
geometry, and after filtering, each surviving row's URL values are looked
up at the row's own pre-filter index: the loop of `_add_url_columns`
transforms each row independently of its position, and on body rows
`[A, TOTAL, B]` the output is exactly `[A, B]` with `B` carrying the
THIRD original row's link `u2`, not the dropped second row's `u1`. -/
theorem C4_row_correlation :
    (∀ (cols : List String) (urls : List (Nat × List (Nat × String)))
        (rows : List (Nat × List String)),
      (add_url_columns cols urls rows).2 =
        rows.map fun p =>
          (p.1, url_inserts_for urls (columns_with_urls urls cols.length) cols p.1 p.2)) ∧
    parse_table_body ["Name", "Pts"] bodyC4 =
      ⟨["name", "pts", "pts_url"], [["A", "1", "u0"], ["B", "2", "u2"]],
       [.text, .integer, .text]⟩ := by
  refine ⟨fun cols urls rows => ?_, by decide⟩
  unfold add_url_columns
  by_cases h : urls.isEmpty = true
  · have he : urls = [] := by simpa [List.isEmpty_iff] using h
    subst he
    simp [columns_with_urls, url_inserts_for]
  · rw [if_neg h]
    exact add_fold_rows urls _ cols rows

theorem to_snake_case_eq_snakeMaps (s : String) :
    to_snake_case s = String.mk (snakeMaps (trimChars s.data)) := rfl

/-- A list equal to its own trim is untouched by either one-sided
whitespace drop. -/
theorem trim_fixed_parts {l : List Char} (h : trimChars l = l) :
    l.dropWhile Char.isWhitespace = l ∧
      l.reverse.dropWhile Char.isWhitespace = l.reverse := by
  have h1 : (l.dropWhile Char.isWhitespace).length ≤ l.length :=
    (List.dropWhile_suffix Char.isWhitespace).length_le
  have h2 : (trimChars l).length ≤ (l.dropWhile Char.isWhitespace).length := by
    unfold trimChars
    rw [List.length_reverse]
    have h3 :=
      (List.dropWhile_suffix (l := (l.dropWhile Char.isWhitespace).reverse)
        Char.isWhitespace).length_le
    simpa using h3
  have hlen : l.length = (trimChars l).length := by rw [h]
  have hd : l.dropWhile Char.isWhitespace = l :=
    (List.dropWhile_suffix Char.isWhitespace).eq_of_length (by omega)
  refine ⟨hd, ?_⟩
  have ht : trimChars l = (l.reverse.dropWhile Char.isWhitespace).reverse := by
    unfold trimChars
    rw [hd]
  rw [ht] at h
  simpa using congrArg List.reverse h

/-- If `dropWhile` leaves a cons untouched, its head fails the test. -/
theorem dropWhile_self_head {α : Type _} {p : α → Bool} {c : α} {t : List α}
    (h : (c :: t).dropWhile p = c :: t) : p c = false := by
  by_contra hc
  have hpc : p c = true := by simpa using hc
  rw [List.dropWhile_cons, if_pos hpc] at h
  have hle := (List.dropWhile_suffix (l := t) p).length_le
  have := congrArg List.length h
  simp at this
  omega

/-- Concatenation preserves being trim-fixed, for nonempty parts. -/
theorem trim_fixed_append {x y : List Char} (hx : trimChars x = x) (hy : trimChars y = y)
    (hxne : x ≠ []) (hyne : y ≠ []) : trimChars (x ++ y) = x ++ y := by
  obtain ⟨hx1, _⟩ := trim_fixed_parts hx
  obtain ⟨_, hy2⟩ := trim_fixed_parts hy
  unfold trimChars
  have hdrop : (x ++ y).dropWhile Char.isWhitespace = x ++ y := by
    cases x with
    | nil => exact absurd rfl hxne
    | cons c t =>
      have hc := dropWhile_self_head hx1
      simp [List.dropWhile_cons, hc]
  rw [hdrop, List.reverse_append]
  have hdrop2 : (y.reverse ++ x.reverse).dropWhile Char.isWhitespace =
      y.reverse ++ x.reverse := by
    cases hyr : y.reverse with
    | nil => exact absurd (by simpa using congrArg List.reverse hyr) hyne
    | cons c t =>
      have hfix : (c :: t).dropWhile Char.isWhitespace = c :: t := by
        rw [← hyr]
        exact hy2
      have hc := dropWhile_self_head hfix
      simp [List.dropWhile_cons, hc]
  rw [hdrop2]
  simp

theorem snakeMaps_append (a b : List Char) :
    snakeMaps (a ++ b) = snakeMaps a ++ snakeMaps b := by
  simp [snakeMaps]

theorem snakeMaps_underscore_cons (b : List Char) :
    snakeMaps ('_' :: b) = '_' :: snakeMaps b := by
  simp only [snakeMaps, List.map_cons]
  congr 1

/-- `"_".join` of trim-fixed nonempty pieces is trim-fixed and nonempty. -/
theorem joinUnderscore_fixed :
    ∀ (ls : List String), (∀ s ∈ ls, trimChars s.data = s.data) →
      (∀ s ∈ ls, s.data ≠ []) → ls ≠ [] →
      trimChars (joinUnderscore ls).data = (joinUnderscore ls).data ∧
        (joinUnderscore ls).data ≠ []
  | [], _, _, hne => absurd rfl hne
  | [s], hfix, hne, _ => ⟨hfix s (by simp), hne s (by simp)⟩
  | s :: b :: t, hfix, hne, _ => by
    have ih := joinUnderscore_fixed (b :: t) (fun u hu => hfix u (by simp [hu]))
      (fun u hu => hne u (by simp [hu])) (by simp)
    have hsfix : trimChars s.data = s.data := hfix s (by simp)
    have hsne : s.data ≠ [] := hne s (by simp)
    have hjdata : (joinUnderscore (s :: b :: t)).data =
        s.data ++ (['_'] ++ (joinUnderscore (b :: t)).data) := by
      show (s ++ "_" ++ joinUnderscore (b :: t)).data = _
      simp
    have hufix : trimChars (['_'] ++ (joinUnderscore (b :: t)).data) =
        ['_'] ++ (joinUnderscore (b :: t)).data :=
      trim_fixed_append (by decide) ih.1 (by simp) ih.2
    constructor
    · rw [hjdata]
      exact trim_fixed_append hsfix hufix hsne (by simp)
    · rw [hjdata]
      simp [hsne]

/-- Snake-casing a `"_"`-join of trim-fixed nonempty labels equals the
join of the snake-cased labels. -/
theorem to_snake_case_join :
    ∀ (ls : List String), (∀ s ∈ ls, trimChars s.data = s.data) →
      (∀ s ∈ ls, s.data ≠ []) →
      to_snake_case (joinUnderscore ls) = joinUnderscore (ls.map to_snake_case)
  | [], _, _ => rfl
  | [s], _, _ => rfl
  | s :: b :: t, hfix, hne => by
    have ih := to_snake_case_join (b :: t) (fun u hu => hfix u (by simp [hu]))
      (fun u hu => hne u (by simp [hu]))
    have hj := joinUnderscore_fixed (b :: t) (fun u hu => hfix u (by simp [hu]))
      (fun u hu => hne u (by simp [hu])) (by simp)
    have hsfix : trimChars s.data = s.data := hfix s (by simp)
    have hsne : s.data ≠ [] := hne s (by simp)
    have hjdata : (joinUnderscore (s :: b :: t)).data =
        s.data ++ (['_'] ++ (joinUnderscore (b :: t)).data) := by
      show (s ++ "_" ++ joinUnderscore (b :: t)).data = _
      simp
    have hufix : trimChars (['_'] ++ (joinUnderscore (b :: t)).data) =
        ['_'] ++ (joinUnderscore (b :: t)).data :=
      trim_fixed_append (by decide) hj.1 (by simp) hj.2
    have hfixall : trimChars (joinUnderscore (s :: b :: t)).data =
        (joinUnderscore (s :: b :: t)).data := by
      rw [hjdata]
      exact trim_fixed_append hsfix hufix hsne (by simp)
    rw [to_snake_case_eq_snakeMaps, hfixall, hjdata, snakeMaps_append,
      List.singleton_append, snakeMaps_underscore_cons]
    show String.mk _ = to_snake_case s ++ "_" ++ joinUnderscore ((b :: t).map to_snake_case)
    rw [← ih, to_snake_case_eq_snakeMaps, to_snake_case_eq_snakeMaps, hsfix, hj.1]
    show String.mk (snakeMaps s.data ++ '_' :: snakeMaps (joinUnderscore (b :: t)).data) =
      String.mk ((snakeMaps s.data ++ ['_']) ++ snakeMaps (joinUnderscore (b :: t)).data)
    exact congrArg String.mk (by simp)

/-- C5 (corrected): for a multi-level header whose level labels carry no
surrounding whitespace, the output column name is the underscore-join, in
top-to-bottom order, of the snake-cased level labels that are non-blank
and not auto-generated placeholders; duplicate labels are NOT skipped and
repeated underscores are NOT collapsed, so distinct well-formed headers
can collide. -/
theorem C5_header_flattening (levels : List String) (h : ∀ s ∈ levels, strStrip s = s) :
    flatten_snake_column levels =
      joinUnderscore ((levels.filter keepLevel).map to_snake_case) := by
  unfold flatten_snake_column flatten_column
  apply to_snake_case_join
  · intro s hs
    exact congrArg String.data (h s (List.mem_filter.mp hs).1)
  · intro s hs
    have hk : keepLevel s = true := (List.mem_filter.mp hs).2
    have hfixd : trimChars s.data = s.data :=
      congrArg String.data (h s (List.mem_filter.mp hs).1)
    unfold keepLevel at hk
    intro hnil
    rw [hnil] at hk
    have hemp : trimChars ([] : List Char) = [] := rfl
    rw [hemp] at hk
    simp at hk

/-- C5 witness: a concrete trimmed two-level header. -/
theorem C5_witness :
    flatten_snake_column ["Foo Bar", "Baz/Qux"] =
      joinUnderscore ((["Foo Bar", "Baz/Qux"].filter keepLevel).map to_snake_case) :=
  C5_header_flattening ["Foo Bar", "Baz/Qux"] (by decide)

/-- C8 (confirmed): `_parse_table` fails with the no-table error iff the
selector matched zero candidates, fails with the index error iff the
index is at least the candidate count, and otherwise normalizes the
candidate at `table_index`. -/
theorem C8_table_selection (tables : List HtmlTable) (idx : Nat) :
    (parse_table tables idx = .error .noTableFound ↔ tables = []) ∧
    (parse_table tables idx = .error .tableIndexOutOfRange ↔
      tables ≠ [] ∧ tables.length ≤ idx) ∧
    (idx < tables.length →
      parse_table tables idx =
        .ok (parse_table_body (tables.getD idx ([], [])).1 (tables.getD idx ([], [])).2)) := by
  unfold parse_table select_stats_table
  by_cases h1 : tables.isEmpty
  · have he : tables = [] := by simpa [List.isEmpty_iff] using h1
    subst he
    simp [Except.map]
  · have hne : tables ≠ [] := by simpa [List.isEmpty_iff] using h1
    by_cases h2 : tables.length ≤ idx
    · simp [h1, h2, hne, Except.map]
    · simp [h1, h2, hne, Except.map]

/-- C8 witness: a one-table page at index 0 is selected and normalized. -/
theorem C8_witness :
    parse_table [(["H"], [[⟨"5", 1, none⟩]])] 0 =
      .ok (parse_table_body ["H"] [[⟨"5", 1, none⟩]]) := by
  simpa using (C8_table_selection [(["H"], [[⟨"5", 1, none⟩]])] 0).2.2 (by decide)

/-- The loop of `match_team_names` equals the per-team decision mapped
over the remaining teams, appended to the accumulated state. -/
theorem match_team_names_loop_eq (score : String → String → ℚ)
    (manual : List (String × String)) (thr : ℚ) (sm : List String) :
    ∀ (fpl : List String) (mapping : List (String × String)) (unmatched : List String),
      match_team_names_loop score manual thr sm fpl mapping unmatched =
        if (unmatched ++ fpl.filter fun t =>
              (team_match_decision score manual thr sm t).isNone).isEmpty then
          .ok (mapping ++ fpl.filterMap fun t =>
            (team_match_decision score manual thr sm t).map fun m => (t, m))
        else .error (unmatched ++ fpl.filter fun t =>
          (team_match_decision score manual thr sm t).isNone) := by
  intro fpl
  induction fpl with
  | nil => intro mapping unmatched; simp [match_team_names_loop]
  | cons t rest ih =>
    intro mapping unmatched
    have hfuzzy : ∀ (hm : manualLookup manual t = none ∨
        ∃ m, manualLookup manual t = some m ∧ sm.contains m = false),
        team_match_decision score manual thr sm t =
          match fuzzy_extract_one score t sm with
          | some (mt, s, _) => if s ≥ thr then some mt else none
          | none => none := by
      intro hm
      unfold team_match_decision
      rcases hm with hm | ⟨m, hm, hcf⟩
      · rw [hm]
      · rw [hm]
        have hnm : m ∉ sm := by simpa using hcf
        simp [hnm]
    cases hm : manualLookup manual t with
    | some mapped =>
      by_cases hc : sm.contains mapped = true
      · have hd : team_match_decision score manual thr sm t = some mapped := by
          unfold team_match_decision
          rw [hm]
          have hmem : mapped ∈ sm := by simpa using hc
          simp [hmem]
        simp only [match_team_names_loop, hm, hc, if_true]
        rw [ih]
        simp [hd, List.append_assoc, List.isEmpty_iff, List.singleton_append,
          List.filter_cons, List.filterMap_cons]
      · have hcf : sm.contains mapped = false := by simpa using hc
        have hd := hfuzzy (Or.inr ⟨mapped, hm, hcf⟩)
        simp only [match_team_names_loop, hm, hcf, Bool.false_eq_true, if_false]
        cases hf : fuzzy_extract_one score t sm with
        | none =>
          rw [hf] at hd
          simp only [] at hd
          rw [ih]
          simp [hd, List.append_assoc, List.isEmpty_iff, List.singleton_append,
            List.filter_cons, List.filterMap_cons]
        | some r =>
          obtain ⟨mt, s, i⟩ := r
          rw [hf] at hd
          simp only [] at hd
          by_cases hs : s ≥ thr
          · rw [if_pos hs] at hd
            simp only [hs, if_true]
            rw [ih]
            simp [hd, List.append_assoc, List.isEmpty_iff, List.singleton_append,
              List.filter_cons, List.filterMap_cons]
          · rw [if_neg hs] at hd
            simp only [hs, if_false]
            rw [ih]
            simp [hd, List.append_assoc, List.isEmpty_iff, List.singleton_append,
              List.filter_cons, List.filterMap_cons]
    | none =>
      have hd := hfuzzy (Or.inl hm)
      simp only [match_team_names_loop, hm]
      cases hf : fuzzy_extract_one score t sm with
      | none =>
        rw [hf] at hd
        simp only [] at hd
        rw [ih]
        simp [hd, List.append_assoc, List.isEmpty_iff, List.singleton_append,
          List.filter_cons, List.filterMap_cons]
      | some r =>
        obtain ⟨mt, s, i⟩ := r
        rw [hf] at hd
        simp only [] at hd
        by_cases hs : s ≥ thr
        · rw [if_pos hs] at hd
          simp only [hs, if_true]
          rw [ih]
          simp [hd, List.append_assoc, List.isEmpty_iff, List.singleton_append,
            List.filter_cons, List.filterMap_cons]
        · rw [if_neg hs] at hd
          simp only [hs, if_false]
          rw [ih]
          simp [hd, List.append_assoc, List.isEmpty_iff, List.singleton_append,
            List.filter_cons, List.filterMap_cons]

/-- C6 (confirmed): team matching consults the manual alias table first
and accepts its target when that target is an SM team; otherwise the
best fuzzy candidate is accepted exactly when its score reaches the
threshold; and the call returns the full mapping exactly when every team
matched, else it fails listing every unmatched team — no partial mapping
is returned. -/
theorem C6_team_matching (score : String → String → ℚ)
    (manual : List (String × String)) (thr : ℚ) (fpl sm : List String) :
    (match_team_names score manual thr fpl sm =
      if (fpl.filter fun t =>
            (team_match_decision score manual thr sm t).isNone).isEmpty then
        .ok (fpl.filterMap fun t =>
          (team_match_decision score manual thr sm t).map fun m => (t, m))
      else .error (fpl.filter fun t =>
        (team_match_decision score manual thr sm t).isNone)) ∧
    (∀ t m, manualLookup manual t = some m → sm.contains m = true →
      team_match_decision score manual thr sm t = some m) := by
  constructor
  · have h := match_team_names_loop_eq score manual thr sm fpl [] []
    simpa [match_team_names] using h
  · intro t m hm hc
    unfold team_match_decision
    rw [hm]
    have hmem : m ∈ sm := by simpa using hc
    simp [hmem]

/-- C6 witness: the spec's own §8 example, with an equality scorer. -/
theorem C6_witness :
    match_team_names (fun a b => if a = b then 100 else 0)
        [("Man Utd", "Manchester United")] 80
        ["Man Utd", "Chelsea"] ["Manchester United", "Chelsea"] =
      .ok [("Man Utd", "Manchester United"), ("Chelsea", "Chelsea")] ∧
    team_match_decision (fun a b => if a = b then 100 else 0)
        [("Man Utd", "Manchester United")] 80 ["Manchester United", "Chelsea"]
        "Man Utd" = some "Manchester United" := by
  constructor
  · rw [(C6_team_matching (fun a b => if a = b then 100 else 0)
      [("Man Utd", "Manchester United")] 80
      ["Man Utd", "Chelsea"] ["Manchester United", "Chelsea"]).1]
    rfl
  · exact (C6_team_matching (fun a b => if a = b then 100 else 0)
      [("Man Utd", "Manchester United")] 80
      ["Man Utd", "Chelsea"] ["Manchester United", "Chelsea"]).2
      "Man Utd" "Manchester United" (by rfl) (by decide)

/-- C9 (code bug): with links in two distinct physical columns, the
second URL column is derived from `df.columns[col_idx]` AFTER the first
insertion shifted the columns, so it is misnamed `a_url_url` and placed
after `a_url`, while column `b`'s links land under it and `b` gets no
URL column at all. -/
theorem C9_url_misalignment :
    add_url_columns ["a", "b"] (extract_table_urls bodyC9) [(0, ["A1", "7"])] =
      (["a", "a_url", "a_url_url", "b"], [(0, ["A1", "a1", "b1", "7"])]) := by decide

theorem fbm_combine_none (sm : SMPlayer) (b : Option (SMPlayer × ℚ)) :
    fbm_combine sm b none = b := rfl

/-- Merging two successive scores equals merging their maximum. -/
theorem fbm_step_algebra (sm : SMPlayer) (s₁ m : ℚ) (acc : Option (SMPlayer × ℚ)) :
    fbm_combine sm (fbm_combine sm acc (some s₁)) (some m) =
      fbm_combine sm acc (some (max s₁ m)) := by
  cases acc with
  | none =>
    simp only [fbm_combine]
    rcases lt_or_le s₁ m with h | h
    · rw [if_pos h, max_eq_right h.le]
    · rw [if_neg (not_lt.mpr h), max_eq_left h]
  | some pb =>
    obtain ⟨bp, bs⟩ := pb
    by_cases h1 : s₁ > bs
    · rw [show fbm_combine sm (some (bp, bs)) (some s₁) = some (sm, s₁) by
        simp [fbm_combine, h1]]
      simp only [fbm_combine]
      have hmaxbs : max s₁ m > bs := lt_of_lt_of_le h1 (le_max_left _ _)
      rw [if_pos hmaxbs]
      rcases lt_or_le s₁ m with h2 | h2
      · rw [if_pos h2, max_eq_right h2.le]
      · rw [if_neg (not_lt.mpr h2), max_eq_left h2]
    · rw [show fbm_combine sm (some (bp, bs)) (some s₁) = some (bp, bs) by
        simp [fbm_combine, h1]]
      simp only [fbm_combine]
      have hs1bs : s₁ ≤ bs := not_lt.mp h1
      by_cases h2 : m > bs
      · have hmax : max s₁ m = m := max_eq_right (le_of_lt (lt_of_le_of_lt hs1bs h2))
        rw [if_pos h2, hmax, if_pos h2]
      · have hmaxle : max s₁ m ≤ bs := max_le hs1bs (not_lt.mp h2)
        rw [if_neg h2, if_neg (not_lt.mpr hmaxle)]

/-- The inner loop of `find_best_match` over the FPL name variants merges
the candidate's maximal above-threshold `extractOne` score into the
running best. -/
theorem inner_fold_eq (score : String → String → ℚ) (thr : ℚ) (sm : SMPlayer)
    (sv : List String) :
    ∀ (fv : List String) (acc : Option (SMPlayer × ℚ)),
      fv.foldl (fun b fn => fbm_update thr sm b (fuzzy_extract_one score fn sv)) acc =
        fbm_combine sm acc
          (((fv.filterMap fun fn => (fuzzy_extract_one score fn sv).map fun r => r.2.1).filter
              fun s => s ≥ thr).maximum) := by
  intro fv
  induction fv with
  | nil => intro acc; rfl
  | cons fn fv' ih =>
    intro acc
    rw [List.foldl_cons, List.filterMap_cons]
    cases hr : fuzzy_extract_one score fn sv with
    | none =>
      simp only [Option.map_none']
      rw [ih]
      rfl
    | some r =>
      obtain ⟨c, s₁, i⟩ := r
      simp only [Option.map_some']
      by_cases hs : s₁ ≥ thr
      · rw [List.filter_cons_of_pos (by simpa using hs), ih, List.maximum_cons]
        have hupd : fbm_update thr sm acc (some (c, s₁, i)) =
            fbm_combine sm acc (some s₁) := by
          simp [fbm_update, fbm_combine, hs]
        rw [hupd]
        cases hM : ((fv'.filterMap fun fn =>
            (fuzzy_extract_one score fn sv).map fun r => r.2.1).filter
              fun s => s ≥ thr).maximum with
        | bot =>
          have hmax : max ((s₁ : ℚ) : WithBot ℚ) ⊥ = ((s₁ : ℚ) : WithBot ℚ) :=
            max_eq_left bot_le
          rw [hmax]
          rfl
        | coe m =>
          have hmax : max ((s₁ : ℚ) : WithBot ℚ) (↑m) = ((max s₁ m : ℚ) : WithBot ℚ) :=
            (WithBot.coe_max s₁ m).symm
          rw [hmax]
          exact fbm_step_algebra sm s₁ m acc
      · rw [List.filter_cons_of_neg (by simpa using hs), ih]
        have hupd : fbm_update thr sm acc (some (c, s₁, i)) = acc := by
          simp [fbm_update, hs]
        rw [hupd]

/-- Merging a candidate's score is exactly one `argAux` step of
`List.argmax Prod.snd`. -/
theorem fbm_combine_argAux (sm : SMPlayer) (s : ℚ) (acc : Option (SMPlayer × ℚ)) :
    fbm_combine sm acc (some s) =
      List.argAux (fun b c => Prod.snd c < Prod.snd b) acc (sm, s) := by
  cases acc with
  | none => rfl
  | some pb => rfl

/-- The candidate loop of `find_best_match` is the `argmax` fold over the
eligible candidates. -/
theorem find_best_fold_eq (score : String → String → ℚ) (thr : ℚ) (fv : List String) :
    ∀ (cands : List SMPlayer) (acc : Option (SMPlayer × ℚ)),
      cands.foldl
        (fun best sm =>
          let sm_variants := get_sm_name_variants sm
          if sm_variants.isEmpty then best
          else
            fv.foldl
              (fun best fpl_name => fbm_update thr sm best
                (fuzzy_extract_one score fpl_name sm_variants))
              best)
        acc =
      (eligible_candidates score thr fv cands).foldl
        (List.argAux fun b c => Prod.snd c < Prod.snd b) acc := by
  intro cands
  induction cands with
  | nil => intro acc; rfl
  | cons sm cands' ih =>
    intro acc
    rw [List.foldl_cons]
    unfold eligible_candidates
    rw [List.filterMap_cons]
    by_cases hsv : (get_sm_name_variants sm).isEmpty = true
    · have hcb : cand_best_score score thr fv sm = none := by
        unfold cand_best_score
        rw [if_pos hsv]
      simp only [hcb, Option.map_none', hsv, if_true]
      exact ih acc
    · have hstep := inner_fold_eq score thr sm (get_sm_name_variants sm) fv acc
      have hcb : cand_best_score score thr fv sm =
          ((fv.filterMap fun fn =>
            (fuzzy_extract_one score fn (get_sm_name_variants sm)).map fun r => r.2.1).filter
              fun s => s ≥ thr).maximum := by
        unfold cand_best_score
        rw [if_neg hsv]
      simp only [hsv, if_false]
      rw [hstep, ← hcb]
      cases hc : cand_best_score score thr fv sm with
      | none =>
        simp only [Option.map_none']
        rw [fbm_combine_none]
        exact ih acc
      | some s =>
        simp only [Option.map_some']
        rw [List.foldl_cons, fbm_combine_argAux]
        exact ih _

/-- `find_best_match` computes the first-on-ties argmax of the eligible
candidates' best above-threshold scores. -/
theorem find_best_match_eq_argmax (score : String → String → ℚ) (thr : ℚ)
    (fpl : FPLPlayer) (cands : List SMPlayer) :
    find_best_match score fpl cands thr =
      (eligible_candidates score thr (get_fpl_name_variants fpl) cands).argmax Prod.snd := by
  unfold find_best_match
  by_cases hfv : (get_fpl_name_variants fpl).isEmpty = true
  · rw [if_pos hfv]
    have hfv' : get_fpl_name_variants fpl = [] := List.isEmpty_iff.mp hfv
    have he : eligible_candidates score thr (get_fpl_name_variants fpl) cands = [] := by
      rw [hfv']
      unfold eligible_candidates
      have hc : ∀ sm, cand_best_score score thr [] sm = none := by
        intro sm
        unfold cand_best_score
        by_cases hsv : (get_sm_name_variants sm).isEmpty = true
        · rw [if_pos hsv]
        · rw [if_neg hsv]
          rfl
      simp [hc]
    rw [he, List.argmax_nil]
  · rw [if_neg hfv]
    exact find_best_fold_eq score thr (get_fpl_name_variants fpl) cands none

/-- A positive `cand_best_score` means the candidate has name variants and
its score reached the threshold. -/
theorem cand_best_score_pos (score : String → String → ℚ) (thr : ℚ)
    (fv : List String) (sm : SMPlayer) (s : ℚ)
    (h : cand_best_score score thr fv sm = some s) :
    get_sm_name_variants sm ≠ [] ∧ s ≥ thr := by
  unfold cand_best_score at h
  by_cases hsv : (get_sm_name_variants sm).isEmpty = true
  · rw [if_pos hsv] at h
    exact absurd h (by simp)
  · rw [if_neg hsv] at h
    refine ⟨by simpa [List.isEmpty_iff] using hsv, ?_⟩
    have hmem := List.maximum_eq_coe_iff.mp h
    have := List.mem_filter.mp hmem.1
    simpa using this.2

/-- C7 (confirmed): `find_best_match` returns the eligible candidate (one
with name variants and an above-threshold best score over all variant
pairs) whose best `extractOne` score is the single highest, the first such
candidate in source-B iteration order on ties; and the crosswalk build is
greedy per FPL record, so two records matched to the same candidate both
produce entries. -/
theorem C7_player_matching (score : String → String → ℚ) (thr : ℚ)
    (fpl : FPLPlayer) (cands : List SMPlayer) :
    (find_best_match score fpl cands thr =
      (eligible_candidates score thr (get_fpl_name_variants fpl) cands).argmax Prod.snd) ∧
    (∀ p s, find_best_match score fpl cands thr = some (p, s) →
      (p, s) ∈ eligible_candidates score thr (get_fpl_name_variants fpl) cands ∧
      s ≥ thr ∧
      (∀ q t,
        (q, t) ∈ eligible_candidates score thr (get_fpl_name_variants fpl) cands → t ≤ s) ∧
      (∀ q t,
        (q, t) ∈ eligible_candidates score thr (get_fpl_name_variants fpl) cands → s ≤ t →
        @List.indexOf (SMPlayer × ℚ) instBEqOfDecidableEq (p, s)
            (eligible_candidates score thr (get_fpl_name_variants fpl) cands) ≤
          @List.indexOf (SMPlayer × ℚ) instBEqOfDecidableEq (q, t)
            (eligible_candidates score thr (get_fpl_name_variants fpl) cands))) ∧
    (∀ (tm : List (String × String)) (smps : List SMPlayer) (fpls : List FPLPlayer)
        (fp1 fp2 : FPLPlayer) (e1 e2 : CrosswalkEntry),
      fp1 ∈ fpls → fp2 ∈ fpls →
      crosswalk_row score thr tm smps fp1 = some e1 →
      crosswalk_row score thr tm smps fp2 = some e2 →
      e1 ∈ build_crosswalk score thr tm smps fpls ∧
        e2 ∈ build_crosswalk score thr tm smps fpls) := by
  refine ⟨find_best_match_eq_argmax score thr fpl cands, ?_, ?_⟩
  · intro p s hps
    rw [find_best_match_eq_argmax] at hps
    obtain ⟨h1, h2, h3⟩ := List.argmax_eq_some_iff.mp hps
    obtain ⟨q, _, hqeq⟩ := List.mem_filterMap.mp h1
    have hthr : s ≥ thr := by
      cases hc : cand_best_score score thr (get_fpl_name_variants fpl) q with
      | none => rw [hc] at hqeq; simp at hqeq
      | some s' =>
        rw [hc] at hqeq
        simp only [Option.map_some'] at hqeq
        have hs' : s' = s := congrArg Prod.snd (Option.some.inj hqeq)
        exact hs' ▸ (cand_best_score_pos score thr _ q s' hc).2
    exact ⟨h1, hthr, fun q' t hqt => h2 (q', t) hqt, fun q' t hqt hle => h3 (q', t) hqt hle⟩
  · intro tm smps fpls fp1 fp2 e1 e2 h1 h2 hc1 hc2
    exact ⟨List.mem_filterMap.mpr ⟨fp1, h1, hc1⟩, List.mem_filterMap.mpr ⟨fp2, h2, hc2⟩⟩

/-- C7 witness: two FPL players on the same team both crosswalked to the
single SM candidate. -/
theorem C7_witness :
    (⟨1, 7⟩ : CrosswalkEntry) ∈ build_crosswalk (fun _a _b => (90 : ℚ)) 80 [("T", "S")]
        [⟨7, "Gamma", "", "", "", "S"⟩]
        [⟨1, "Alpha", "One", "A1", "T"⟩, ⟨2, "Beta", "Two", "B2", "T"⟩] ∧
    (⟨2, 7⟩ : CrosswalkEntry) ∈ build_crosswalk (fun _a _b => (90 : ℚ)) 80 [("T", "S")]
        [⟨7, "Gamma", "", "", "", "S"⟩]
        [⟨1, "Alpha", "One", "A1", "T"⟩, ⟨2, "Beta", "Two", "B2", "T"⟩] :=
  (C7_player_matching (fun _a _b => (90 : ℚ)) 80 ⟨1, "Alpha", "One", "A1", "T"⟩ []).2.2
    [("T", "S")] [⟨7, "Gamma", "", "", "", "S"⟩]
    [⟨1, "Alpha", "One", "A1", "T"⟩, ⟨2, "Beta", "Two", "B2", "T"⟩]
    ⟨1, "Alpha", "One", "A1", "T"⟩ ⟨2, "Beta", "Two", "B2", "T"⟩ ⟨1, 7⟩ ⟨2, 7⟩
    (by decide) (by decide) (by decide) (by decide)

/-- C10 (confirmed): every crosswalk entry's SM side comes from a
candidate on the matched team whose name-variant list is nonempty —
candidates with no variants are skipped during scoring and never
referenced. -/
theorem C10_blank_candidates (score : String → String → ℚ) (thr : ℚ)
    (tm : List (String × String)) (smps : List SMPlayer) (fpls : List FPLPlayer)
    (e : CrosswalkEntry) (he : e ∈ build_crosswalk score thr tm smps fpls) :
    ∃ p, p ∈ smps ∧ e.sm_player_id = p.player_id ∧ get_sm_name_variants p ≠ [] := by
  obtain ⟨fp, hfp, hcr⟩ := List.mem_filterMap.mp he
  unfold crosswalk_row at hcr
  by_cases h1 : fp.team_name = ""
  · rw [if_pos h1] at hcr
    exact absurd hcr (by simp)
  · rw [if_neg h1] at hcr
    cases hlk : tm.lookup fp.team_name with
    | none => rw [hlk] at hcr; simp at hcr
    | some smteam =>
      rw [hlk] at hcr
      simp only [] at hcr
      by_cases h2 : (sm_candidates_for smps smteam).isEmpty = true
      · rw [if_pos h2] at hcr
        exact absurd hcr (by simp)
      · rw [if_neg h2] at hcr
        cases hfb : find_best_match score fp (sm_candidates_for smps smteam) thr with
        | none => rw [hfb] at hcr; simp at hcr
        | some m =>
          obtain ⟨p, s⟩ := m
          rw [hfb] at hcr
          simp only [Option.map_some'] at hcr
          have he2 : e = ⟨fp.id, p.player_id⟩ := (Option.some.inj hcr).symm
          have harg := find_best_match_eq_argmax score thr fp (sm_candidates_for smps smteam)
          rw [harg] at hfb
          have hmem : (p, s) ∈ eligible_candidates score thr (get_fpl_name_variants fp)
              (sm_candidates_for smps smteam) := List.argmax_mem (Option.mem_def.mpr hfb)
          obtain ⟨q, hq, hqeq⟩ := List.mem_filterMap.mp hmem
          cases hc : cand_best_score score thr (get_fpl_name_variants fp) q with
          | none => rw [hc] at hqeq; simp at hqeq
          | some s' =>
            rw [hc] at hqeq
            simp only [Option.map_some'] at hqeq
            have hqp : q = p := congrArg Prod.fst (Option.some.inj hqeq)
            have hnv : get_sm_name_variants q ≠ [] :=
              (cand_best_score_pos score thr _ q s' hc).1
            refine ⟨p, ?_, ?_, ?_⟩
            · have hqc : q ∈ sm_candidates_for smps smteam := hq
              rw [hqp] at hqc
              exact (List.mem_filter.mp hqc).1
            · rw [he2]
            · rw [← hqp]
              exact hnv

/-- C10 witness: with a variant-less candidate in the pool, the crosswalk
entry references the other, variant-bearing candidate. -/
theorem C10_witness :
    ∃ p, p ∈ [(⟨9, "", "", "", "", "S"⟩ : SMPlayer), ⟨7, "Gamma", "", "", "", "S"⟩] ∧
      (⟨1, 7⟩ : CrosswalkEntry).sm_player_id = p.player_id ∧
      get_sm_name_variants p ≠ [] :=
  C10_blank_candidates (fun _a _b => (90 : ℚ)) 80 [("T", "S")]
    [⟨9, "", "", "", "", "S"⟩, ⟨7, "Gamma", "", "", "", "S"⟩]
    [⟨1, "Alpha", "One", "A1", "T"⟩] ⟨1, 7⟩ (by decide)

end VersoStat
